import Mathlib

/-!
# Verification of the MIGraphX execution provider core

A shallow embedding of `onnxruntime/core/providers/migraphx/migraphx_execution_provider.cc`:
the node-support oracle (`IsTypeSupported`, `IsNodeSupported`), the topological
partitioner (`GetPartitionedSubgraphs`), the cluster boundary resolver
(`GetInputsOutputsOfSubgraph`), the feasibility gate and capability query
(`GetCapability`), and the dispatch-time parameter binding (`compute_func`),
together with theorems settling the specification's claims about them.
-/

namespace MigraphxEP

/-- ONNX tensor element types (`TensorProto_DataType` / `ONNXTensorElementDataType`;
the two C enums share the same numbering and the source puns between them). -/
inductive OnnxDataType where
  | UNDEFINED | FLOAT | UINT8 | INT8 | UINT16 | INT16 | INT32 | INT64
  | STRING | BOOL | FLOAT16 | DOUBLE | UINT32 | UINT64
  | COMPLEX64 | COMPLEX128 | BFLOAT16
deriving DecidableEq, Repr

/-- `migraphx::shape::type_t` element types used by the provider. -/
inductive MgxType where
  | half | float | double
  | int8 | int16 | int32 | int64
  | uint8 | uint16 | uint32 | uint64
deriving DecidableEq, Repr

/-- The tensor part of an ONNX `TypeProto`: element type and shape dimensions.
A dimension is `none` when `dim` has no `dim_value` (a symbolic/dynamic dimension). -/
structure TypeProto where
  elemType : OnnxDataType
  dims : List (Option Nat)
deriving DecidableEq, Repr

/-- A `NodeArg`: a named, possibly untyped tensor slot (`TypeAsProto()` may be null). -/
structure NodeArg where
  name : String
  type : Option TypeProto
deriving DecidableEq, Repr

/-- A graph `Node`: index, operator type, and its input/output defs.
`ForEachDef` visits `inputDefs` (with `is_input = true`) then `outputDefs`. -/
structure Node where
  index : Nat
  opType : String
  inputDefs : List NodeArg
  outputDefs : List NodeArg
deriving DecidableEq, Repr

/-- An initialized tensor: name plus whether its `data_location` is `EXTERNAL`. -/
structure Initializer where
  name : String
  isExternal : Bool
deriving DecidableEq, Repr

/-- The read-only `GraphViewer` facade consumed by the provider.
`inputsIncludingInitializers` doubles as the declared-input list of the cloned
model probed by the gate: the source clones the graph and calls `Resolve()`
before re-adding initializers, so every argument without a producer — genuine
inputs and initializer-fed arguments alike — becomes a model input (host-runtime
`Graph::Resolve` behaviour, outside this repository). -/
structure GraphViewer where
  nodes : List Node
  topoOrder : List Nat
  initializers : List Initializer
  inputsIncludingInitializers : List String
  inputs : List String
  outputs : List String
  isSubgraph : Bool
deriving DecidableEq, Repr

/-- `GraphViewer::GetNode(idx)`. -/
def GraphViewer.getNode (g : GraphViewer) (idx : Nat) : Option Node :=
  g.nodes.find? (fun n => n.index == idx)

/-- `GraphViewer::GetNodeArg(name)`: look the name up among all node defs. -/
def GraphViewer.getNodeArg (g : GraphViewer) (nm : String) : Option NodeArg :=
  (g.nodes.flatMap (fun n => n.inputDefs ++ n.outputDefs)).find? (fun a => a.name == nm)

/-- Names of all initialized tensors (`GetAllInitializedTensors` key set). -/
def GraphViewer.initNames (g : GraphViewer) : List String :=
  g.initializers.map (·.name)

/-! ## Support oracle -/

/-- `IsTypeSupported(node_arg)`: false on a null type proto, else a switch over
the element type admitting exactly fp16/fp32/fp64 and the (u)int 8/16/32/64 types. -/
def isTypeSupported (arg : NodeArg) : Bool :=
  match arg.type with
  | none => false
  | some tp =>
    match tp.elemType with
    | .FLOAT16 | .FLOAT | .DOUBLE
    | .INT8 | .INT16 | .INT32 | .INT64
    | .UINT8 | .UINT16 | .UINT32 | .UINT64 => true
    | _ => false

/-- The allowed element types of `IsTypeSupported`, as a list. -/
def allowedTypes : List OnnxDataType :=
  [.FLOAT16, .FLOAT, .DOUBLE, .INT8, .INT16, .INT32, .INT64,
   .UINT8, .UINT16, .UINT32, .UINT64]

/-- The defs visited by `Node::ForEachDef`: input defs then output defs. -/
def Node.allDefs (n : Node) : List NodeArg :=
  n.inputDefs ++ n.outputDefs

/-- Check 1 of `IsNodeSupported`: the `are_types_supported &= IsTypeSupported(...)`
accumulation over `ForEachDef`. -/
def nodeTypesSupported (n : Node) : Bool :=
  n.allDefs.foldl (fun acc arg => acc && isTypeSupported arg) true

/-- `IsNodeSupported(op_set, graph, node)` on a resolved node: all def types
supported, and the op type present in the backend's supported-op set. -/
def isNodeSupported (opSet : List String) (n : Node) : Bool :=
  if !nodeTypesSupported n then false
  else if opSet.contains n.opType then true
  else false

/-- `get_migraphx_type`: returns the success flag and the resulting
`mgx_type`.  `mgx_type` is initialized to `float_type` before the switch, so on
the default (unsupported) branch the function returns `false` with the value
still `float`. -/
def get_migraphx_type (t : OnnxDataType) : Bool × MgxType :=
  match t with
  | .FLOAT16 => (true, .half)
  | .FLOAT => (true, .float)
  | .DOUBLE => (true, .double)
  | .INT8 => (true, .int8)
  | .INT16 => (true, .int16)
  | .INT32 => (true, .int32)
  | .INT64 => (true, .int64)
  | .UINT8 => (true, .uint8)
  | .UINT16 => (true, .uint16)
  | .UINT32 => (true, .uint32)
  | .UINT64 => (true, .uint64)
  | _ => (false, .float)

/-- The correspondence between an ONNX runtime tensor element type and a
migraphx parameter type: the type the switch in `get_migraphx_type` maps it to,
when the switch recognises it at all. -/
def typeMatches (t : OnnxDataType) (mt : MgxType) : Prop :=
  (get_migraphx_type t).1 = true ∧ (get_migraphx_type t).2 = mt

instance (t : OnnxDataType) (mt : MgxType) : Decidable (typeMatches t mt) := by
  unfold typeMatches; infer_instance

/-! ## Partitioner -/

/-- The scan loop of `GetPartitionedSubgraphs`.  `prev` is the iterator cursor,
represented as the remaining suffix of the topological order; `std::find(prev,
end, u)` splits that suffix at the first occurrence of `u`, the half-open range
before it is pushed when non-empty, and the cursor advances past `u`. -/
def goPart (prev : List Nat) : List Nat → List (List Nat)
  | [] => if prev.isEmpty then [] else [prev]
  | u :: rest =>
    let cluster := prev.takeWhile (fun x => x != u)
    let tailClusters := goPart ((prev.dropWhile (fun x => x != u)).tail) rest
    if cluster.isEmpty then tailClusters else cluster :: tailClusters

/-- `GetPartitionedSubgraphs(topological_order, unsupported_nodes)`. -/
def getPartitionedSubgraphs (topo unsup : List Nat) : List (List Nat) :=
  goPart topo unsup

/-! ## Boundary resolver -/

/-- Insertion into a duplicate-free list, embedding `unordered_set::insert`
paired with the source's guarded `push_back` into the ordered companion list. -/
def insertDedup (l : List String) (x : String) : List String :=
  if l.contains x then l else l ++ [x]

/-- One step of the name-collection loop of `GetInputsOutputsOfSubgraph`:
resolve the cluster node and record the first-seen names of its selected defs. -/
def collectStep (g : GraphViewer) (sel : Node → List NodeArg)
    (acc : List String) (idx : Nat) : List String :=
  match g.getNode idx with
  | none => acc
  | some n => (sel n).foldl (fun a arg => insertDedup a arg.name) acc

/-- First-seen collection of selected def names over the cluster nodes. -/
def collectNames (g : GraphViewer) (sel : Node → List NodeArg)
    (nodes : List Nat) : List String :=
  nodes.foldl (collectStep g sel) []

/-- The `ordered_input_args` collection: for each cluster node in order,
`ForEachDef` pushes each first-seen input name (the `input_args` set has the
same membership). -/
def collectInputArgs (g : GraphViewer) (nodes : List Nat) : List String :=
  collectNames g (·.inputDefs) nodes

/-- The `output_args` set: every output name of a cluster node. -/
def collectOutputArgs (g : GraphViewer) (nodes : List Nat) : List String :=
  collectNames g (·.outputDefs) nodes

/-- `node->OutputNodesBegin()/OutputNodesEnd()`: downstream nodes consuming some
output of `n`, connected by name. -/
def consumers (g : GraphViewer) (n : Node) : List Node :=
  g.nodes.filter (fun m =>
    n.outputDefs.any (fun o => m.inputDefs.any (fun a => a.name == o.name)))

/-- The scan over one cluster node's consumer list `ms`: consumers inside the
cluster are skipped; for one outside, the `ext_node_inputs` name set is its
input-def names, and each output of `n` found there is marked external. -/
def markConsumerFold (nodes : List Nat) (n : Node) (ms : List Node)
    (acc : List String) : List String :=
  ms.foldl (fun acc2 ext =>
    if nodes.contains ext.index then acc2
    else n.outputDefs.foldl (fun acc3 o =>
      if (ext.inputDefs.map NodeArg.name).contains o.name then insertDedup acc3 o.name
      else acc3) acc2) acc

/-- The inner consumer scan of `GetInputsOutputsOfSubgraph` for one cluster node
`n`: for each consumer outside the cluster, collect that consumer's input names
and mark each output of `n` appearing among them as an external output. -/
def markExternalOutputs (g : GraphViewer) (nodes : List Nat) (n : Node)
    (acc : List String) : List String :=
  markConsumerFold nodes n (consumers g n) acc

/-- One step of the `external_output_args` loop: resolve the cluster node and
run its consumer scan. -/
def externalStep (g : GraphViewer) (nodes : List Nat)
    (acc : List String) (idx : Nat) : List String :=
  match g.getNode idx with
  | none => acc
  | some n => markExternalOutputs g nodes n acc

/-- The `external_output_args` set over the whole cluster. -/
def externalOutputArgs (g : GraphViewer) (nodes : List Nat) : List String :=
  nodes.foldl (externalStep g nodes) []

/-- The constant test applied to an input name: an initializer that is not an
original graph input, or a name flagged required by the oracle. -/
def isConstInput (g : GraphViewer) (req : List String) (nm : String) : Bool :=
  (g.initNames.contains nm && !g.inputsIncludingInitializers.contains nm)
    || req.contains nm

/-- `GetInputsOutputsOfSubgraph(graph, nodes, mgx_required_initializers)`:
returns `(nodes_inputs, nodes_outputs)`.  Runtime inputs (not produced inside,
not constant) come first in first-seen order, then constant inputs; outputs are
the external outputs followed by declared graph outputs produced inside the
cluster but not already marked external. -/
def getInputsOutputsOfSubgraph (g : GraphViewer) (nodes : List Nat)
    (req : List String) : List String × List String :=
  let orderedInputArgs := collectInputArgs g nodes
  let outputArgs := collectOutputArgs g nodes
  let extOutputArgs := externalOutputArgs g nodes
  let constInputs := orderedInputArgs.filter (fun nm => isConstInput g req nm)
  let runtimeInputs := orderedInputArgs.filter (fun nm =>
    !outputArgs.contains nm && !isConstInput g req nm)
  let nodesInputs := runtimeInputs ++ constInputs
  let nodesOutputs := extOutputArgs ++
    g.outputs.filter (fun nm =>
      outputArgs.contains nm && !extOutputArgs.contains nm)
  (nodesInputs, nodesOutputs)

/-! ## Capability query -/

/-- `GetUnsupportedNodeIndices`: scans the topological order; supported nodes
contribute their initializer-fed input names to `mgx_required_initializers`,
unsupported nodes are recorded.  Returns `(unsupported_nodes_idx, mgx_required_initializers)`. -/
def getUnsupportedNodeIndices (g : GraphViewer) (supOps : List String) :
    List Nat × List String :=
  g.topoOrder.foldl (fun acc idx =>
    match g.getNode idx with
    | none => acc
    | some n =>
      if isNodeSupported supOps n then
        (acc.1, n.inputDefs.foldl (fun r arg =>
          if g.initNames.contains arg.name then insertDedup r arg.name else r) acc.2)
      else (acc.1 ++ [idx], acc.2)) ([], [])

/-- The external-initializer rejection test of the gate. -/
def anyExternalInitializer (g : GraphViewer) : Bool :=
  g.initializers.any (·.isExternal)

/-- Modelled from the spec: the output list of the model the gate clones,
resolves and serializes.  `Graph::Resolve` and `Model::ToProto` are host-runtime
code outside the staged sources; per the spec the gate rejects when \"the graph
declares more than one output\", so the cloned model's outputs are the graph's
declared outputs. -/
def modelOutputs (g : GraphViewer) : List String := g.outputs

/-- Modelled from the spec: the input list of the cloned model scanned by the
dynamic-shape check.  The source resolves the clone before re-adding
initializers, so every argument without a producer — genuine inputs and
initializer-fed arguments alike — is a model input (host-runtime behaviour
outside the staged sources). -/
def modelInputs (g : GraphViewer) : List String := g.inputsIncludingInitializers

/-- The dynamic-shape rejection test of the gate: some declared model input
resolves to a node argument one of whose dimensions has no static value
(arguments that do not resolve are skipped, as in the source `continue`). -/
def hasDynamicInput (g : GraphViewer) : Bool :=
  (modelInputs g).any (fun nm =>
    match g.getNodeArg nm with
    | none => false
    | some arg =>
      match arg.type with
      | none => false
      | some tp => tp.dims.any (·.isNone))

/-- One emitted capability record: member node ids, ordered input-name list,
ordered output-name list (the generated `MIGraphX_<n>` name is omitted; no
claim mentions it). -/
structure ClusterCap where
  nodes : List Nat
  inputs : List String
  outputs : List String
deriving DecidableEq, Repr

/-- `GetCapability(graph_viewer)`.  `probeSize` embeds `prog.size()` of the
probe parse of the serialized whole-graph model and `supOps` the backend's
supported-op set — both answers of the external migraphx library.  The
declared-output count of the cloned model is the graph's declared outputs
(see `GraphViewer`).  Every rejection returns the empty list: the feasibility
failures are recovered silently, no error escapes. -/
def GetCapability (g : GraphViewer) (supOps : List String) (probeSize : Nat) :
    List ClusterCap :=
  if g.isSubgraph then []
  else if anyExternalInitializer g then []
  else if (modelOutputs g).length > 1 then []
  else if hasDynamicInput g then []
  else if probeSize = 0 then []
  else
    let unsupReq := getUnsupportedNodeIndices g supOps
    if unsupReq.1.isEmpty then
      if g.inputs.isEmpty then []
      else [⟨g.topoOrder, g.inputs ++ unsupReq.2, g.outputs⟩]
    else
      (getPartitionedSubgraphs g.topoOrder unsupReq.1).foldl (fun res c =>
        let io := getInputsOutputsOfSubgraph g c unsupReq.2
        if io.1.isEmpty then res else res ++ [⟨c, io.1, io.2⟩]) []

/-! ## Dispatch -/

/-- A migraphx `shape`: element type and lengths. -/
structure MgxShape where
  type : MgxType
  lens : List Nat
deriving DecidableEq, Repr

/-- The dispatch-time view of a runtime input tensor: its current element type. -/
structure RuntimeTensor where
  elemType : OnnxDataType
deriving DecidableEq, Repr

/-- A migraphx `argument` bound into the evaluation parameter map, tagged by
provenance: a zero-copy view of a runtime input, a view of the allocated output
tensor, a scratch buffer freshly generated by `t.copy_to(generate_argument(...))`
during this call, or the buffer pre-allocated at compile time and stored in
`map_scratches_`. -/
inductive MgxArg where
  | inputView (ordinal : Nat)
  | outputView (ordinal : Nat)
  | freshScratch (shape : MgxShape)
  | prealloc
deriving DecidableEq, Repr

/-- `MiGraphXFuncState`, restricted to the fields `compute_func` reads: the
parameter-shape map of the compiled program (in its fixed iteration order), the
`param_index → input ordinal` and `param_index → output ordinal` maps, and the
scratch argument stored at compile time. -/
structure FuncState where
  paramShapes : List (String × MgxShape)
  inputIndexes : List (Nat × Nat)
  outputIndexes : List (Nat × Nat)
  scratch : MgxArg
deriving DecidableEq, Repr

/-- Lookup in a `param_index`-keyed map. -/
def lookupIdx (m : List (Nat × Nat)) (k : Nat) : Option Nat :=
  (m.find? (fun p => p.1 == k)).map (·.2)

/-- The first loop of `compute_func` over `param_shapes` with running
`param_index`: for a parameter bound to a runtime input, map its tensor type
through `get_migraphx_type` — the boolean result is discarded, exactly as in
the source — and throw `MIGRAPHX_THROW("MIGraphX: param type mismatch")` when
the mapped type differs from the parameter's declared type; otherwise bind a
zero-copy view of the input. -/
def bindInputsLoop (inputIndexes : List (Nat × Nat)) (inputs : List RuntimeTensor) :
    List (String × MgxShape) → Nat → Except String (List (String × MgxArg))
  | [], _ => .ok []
  | (nm, sh) :: rest, pidx =>
    match lookupIdx inputIndexes pidx with
    | some ord =>
      let tensor := inputs.getD ord ⟨.UNDEFINED⟩
      let mgxType := (get_migraphx_type tensor.elemType).2
      if mgxType = sh.type then
        match bindInputsLoop inputIndexes inputs rest (pidx + 1) with
        | .ok m => .ok ((nm, MgxArg.inputView ord) :: m)
        | .error e => .error e
      else .error "MIGraphX: param type mismatch"
    | none => bindInputsLoop inputIndexes inputs rest (pidx + 1)

/-- `compute_func`: builds the parameter map `m` (first loop: runtime inputs,
throwing on a mapped-type mismatch; second loop: the `output` parameter bound
to the allocated output tensor; third loop: every still-unbound parameter bound
to a freshly generated scratch argument), then evaluates the program under the
shared mutex.  `.ok m` is an evaluation with parameter map `m`; `.error` is a
`MIGRAPHX_THROW` before any evaluation. -/
def computeFunc (st : FuncState) (inputs : List RuntimeTensor) :
    Except String (List (String × MgxArg)) :=
  match bindInputsLoop st.inputIndexes inputs st.paramShapes 0 with
  | .error e => .error e
  | .ok m1 =>
    let m2 := if st.paramShapes.any (fun p => p.1 == "output") then
        m1 ++ [("output", MgxArg.outputView ((st.outputIndexes.headD (0, 0)).2))]
      else m1
    let m3 := st.paramShapes.foldl (fun m p =>
      if m.any (fun q => q.1 == p.1) then m
      else m ++ [(p.1, MgxArg.freshScratch p.2)]) m2
    .ok m3

/-! ## Semantic predicates and concrete instances -/

/-- The name `x` is produced by a node inside the cluster. -/
def producedInside (g : GraphViewer) (nodes : List Nat) (x : String) : Prop :=
  ∃ idx ∈ nodes, ∃ n, g.getNode idx = some n ∧ ∃ o ∈ n.outputDefs, o.name = x

/-- Some consumer of the name `x` lies outside the cluster. -/
def consumedOutside (g : GraphViewer) (nodes : List Nat) (x : String) : Prop :=
  ∃ m ∈ g.nodes, nodes.contains m.index = false ∧ ∃ a ∈ m.inputDefs, a.name = x

/-- A float32 scalar type proto used by the concrete instances. -/
def f32 : TypeProto := ⟨.FLOAT, [some 1]⟩

/-- Producer node of the C6 instance: outputs `w`. -/
def nodeProdW : Node := ⟨0, "CA", [], [⟨"w", some f32⟩]⟩

/-- Consumer node of the C6 instance: consumes `w`, outputs `z`. -/
def nodeConsW : Node := ⟨1, "CB", [⟨"w", some f32⟩], [⟨"z", some f32⟩]⟩

/-- C6 instance: `w` is an initializer (so the oracle scan flags it required:
`getUnsupportedNodeIndices` on this graph yields exactly `["w"]`), is produced
by node 0, consumed by node 1 (both in the cluster), and is a declared graph
output. -/
def graphW : GraphViewer :=
  ⟨[nodeProdW, nodeConsW], [0, 1], [⟨"w", false⟩], [], [], ["w"], false⟩

/-- C9 instance, node 0: a supported generator with no inputs producing `x`. -/
def nodeGen : Node := ⟨0, "Gen", [], [⟨"x", some f32⟩]⟩

/-- C9 instance, node 1: an unsupported consumer of `x` producing `y`. -/
def nodeOdd : Node := ⟨1, "Odd", [⟨"x", some f32⟩], [⟨"y", some f32⟩]⟩

/-- C9 instance: node 0 supported, node 1 unsupported; the only partitioned
cluster `[0]` has an empty computed input list. -/
def graphGen : GraphViewer := ⟨[nodeGen, nodeOdd], [0, 1], [], [], [], ["y"], false⟩

/-- C2 instance node: `Add(a, w) → y` with `w` an initializer. -/
def nodeAdd : Node := ⟨0, "Add", [⟨"a", some f32⟩, ⟨"w", some f32⟩], [⟨"y", some f32⟩]⟩

/-- C2 instance: a fully supported single-node graph with declared input `a`,
initializer `w`, declared output `y`. -/
def graphAdd : GraphViewer :=
  ⟨[nodeAdd], [0], [⟨"w", false⟩], ["a", "w"], ["a"], ["y"], false⟩

/-- C3 instance: a graph declaring two outputs. -/
def graphTwoOut : GraphViewer :=
  ⟨[⟨0, "Split", [⟨"a", some f32⟩], [⟨"y1", some f32⟩, ⟨"y2", some f32⟩]⟩],
    [0], [], ["a"], ["a"], ["y1", "y2"], false⟩

/-- C5 witness instance: node 0 produces `t` consumed by node 1 outside the
cluster; node 1 produces the declared output `y`. -/
def graphChain : GraphViewer :=
  ⟨[⟨0, "Relu", [⟨"a", some f32⟩], [⟨"t", some f32⟩]⟩,
    ⟨1, "Abs", [⟨"t", some f32⟩], [⟨"y", some f32⟩]⟩],
    [0, 1], [], ["a"], ["a"], ["y"], false⟩

/-- C7 instance: one compiled parameter `x` of migraphx float type, bound to
runtime input ordinal 0. -/
def stateOneParam : FuncState :=
  ⟨[("x", ⟨.float, [1]⟩)], [(0, 0)], [(99999, 0)], .prealloc⟩

/-- C8 instance: a compiled program whose parameter-shape map holds only the
reserved scratch parameter; the compile-time buffer sits in the state. -/
def stateScratch : FuncState :=
  ⟨[("scratch", ⟨.float, [4]⟩)], [], [(99999, 0)], .prealloc⟩

/-! ## Theorems: support oracle (C4) -/

theorem foldl_and_eq (f : NodeArg → Bool) (l : List NodeArg) (b : Bool) :
    l.foldl (fun acc x => acc && f x) b = (b && l.all f) := by
  induction l generalizing b with
  | nil => simp
  | cons x xs ih => simp [ih, Bool.and_assoc]

theorem isTypeSupported_iff (arg : NodeArg) :
    isTypeSupported arg = true ↔
      ∃ tp, arg.type = some tp ∧ tp.elemType ∈ allowedTypes := by
  cases arg with
  | mk nm ty =>
    cases ty with
    | none => simp [isTypeSupported]
    | some tp =>
      cases tp with
      | mk et dims =>
        cases et <;> simp [isTypeSupported, allowedTypes]

theorem isNodeSupported_true_iff (opSet : List String) (n : Node) :
    isNodeSupported opSet n = true ↔
      (∀ arg ∈ n.allDefs, isTypeSupported arg = true) ∧ n.opType ∈ opSet := by
  unfold isNodeSupported nodeTypesSupported
  rw [foldl_and_eq]
  by_cases h : n.allDefs.all isTypeSupported <;>
    by_cases hop : n.opType ∈ opSet <;>
      simp_all [List.all_eq_true]

/-- C4: the support oracle classifies a node as unsupported if and only if some
input or output def has an element type outside the allowed numeric set (a
missing type proto counting as unsupported) or its op type is absent from the
backend's supported-op set; in particular a def with a non-numeric element type
forces the node unsupported regardless of op type.  Classification is a pure
function of the op set and the node alone. -/
theorem c4_support_oracle (opSet : List String) (n : Node) :
    (isNodeSupported opSet n = false ↔
      (∃ arg ∈ n.allDefs, ¬ ∃ tp, arg.type = some tp ∧ tp.elemType ∈ allowedTypes) ∨
      n.opType ∉ opSet) ∧
    (∀ arg ∈ n.allDefs,
      (∀ tp, arg.type = some tp → tp.elemType ∉ allowedTypes) →
      isNodeSupported opSet n = false) := by
  have hiff := isNodeSupported_true_iff opSet n
  have hfalse : isNodeSupported opSet n = false ↔
      ¬((∀ arg ∈ n.allDefs, isTypeSupported arg = true) ∧ n.opType ∈ opSet) := by
    rw [← hiff]; cases hn : isNodeSupported opSet n <;> simp
  constructor
  · rw [hfalse]
    constructor
    · intro hc
      rcases not_and_or.mp hc with h | h
      · push_neg at h
        obtain ⟨arg, ha, hns⟩ := h
        exact Or.inl ⟨arg, ha, fun hex => hns ((isTypeSupported_iff arg).mpr hex)⟩
      · exact Or.inr h
    · intro hc
      rcases hc with ⟨arg, ha, hns⟩ | h
      · exact fun hcon => hns ((isTypeSupported_iff arg).mp (hcon.1 arg ha))
      · exact fun hcon => h hcon.2
  · intro arg ha hbad
    rw [hfalse]
    rintro ⟨hall, -⟩
    obtain ⟨tp, htp, hmem⟩ := (isTypeSupported_iff arg).mp (hall arg ha)
    exact hbad tp htp hmem

/-! ## Theorems: partitioner (C1) -/

theorem takeWhile_ne_decomp {u : Nat} :
    ∀ {prev : List Nat}, u ∈ prev →
      prev = prev.takeWhile (fun x => x != u) ++
        u :: (prev.dropWhile (fun x => x != u)).tail := by
  intro prev
  induction prev with
  | nil => intro h; cases h
  | cons a l ih =>
    intro h
    by_cases ha : a = u
    · subst ha; simp
    · have hne : (a != u) = true := by simp [ha]
      have h1 : List.takeWhile (fun x => x != u) (a :: l) =
          a :: List.takeWhile (fun x => x != u) l := by
        simp [List.takeWhile_cons, hne]
      have h2 : List.dropWhile (fun x => x != u) (a :: l) =
          List.dropWhile (fun x => x != u) l := by
        simp [List.dropWhile_cons, hne]
      rw [h1, h2, List.cons_append]
      have hu : u ∈ l := by
        rcases List.mem_cons.mp h with h1 | h1
        · exact absurd h1.symm ha
        · exact h1
      exact congrArg (a :: ·) (ih hu)

theorem mem_takeWhile_ne {u x : Nat} {l : List Nat}
    (h : x ∈ l.takeWhile (fun y => y != u)) : x ≠ u := by
  have := List.mem_takeWhile_imp h
  simpa using this

theorem sublist_of_cons_append {u : Nat} {rest suf : List Nat} :
    ∀ {pre : List Nat}, u ∉ pre → List.Sublist (u :: rest) (pre ++ u :: suf) → List.Sublist rest suf := by
  intro pre
  induction pre with
  | nil =>
    intro _ h
    simpa using List.cons_sublist_cons.mp h
  | cons p pre ih =>
    intro hu h
    have hup : u ≠ p := fun he => hu (he ▸ List.mem_cons_self p pre)
    cases h with
    | cons _ h' => exact ih (fun hm => hu (List.mem_cons_of_mem p hm)) h'
    | cons₂ h' => exact absurd rfl hup

/-- The full invariant of the scan loop of `GetPartitionedSubgraphs`, proved by
induction along the unsupported-node list with the cursor suffix generalized. -/
theorem goPart_main :
    ∀ (us prev : List Nat), prev.Nodup → List.Sublist us prev →
      (goPart prev us).length ≤ us.length + 1 ∧
      (∀ c ∈ goPart prev us, c ≠ []) ∧
      (∀ c ∈ goPart prev us, ∃ l1 l2, prev = l1 ++ c ++ l2) ∧
      List.Sublist (goPart prev us).flatten prev ∧
      (∀ x ∈ prev, x ∈ (goPart prev us).flatten ∨ x ∈ us) ∧
      (∀ x ∈ (goPart prev us).flatten, x ∉ us) ∧
      (∀ c ∈ goPart prev us, ∀ u ∈ us, u ∉ c) := by
  intro us
  induction us with
  | nil =>
    intro prev _ _
    by_cases hp : prev.isEmpty
    · simp_all [goPart]
    · have hgo : goPart prev [] = [prev] := by simp [goPart, hp]
      rw [hgo]
      refine ⟨by simp, ?_, ?_, by simp, ?_, by simp, by simp⟩
      · intro c hc
        rw [List.mem_singleton] at hc
        subst hc
        intro he; subst he; simp at hp
      · intro c hc
        rw [List.mem_singleton] at hc
        exact ⟨[], [], by simp [hc]⟩
      · intro x hx
        exact Or.inl (by simpa using hx)
  | cons u rest ih =>
    intro prev hnd hsub
    have hu : u ∈ prev := hsub.subset (List.mem_cons_self u rest)
    set pre := prev.takeWhile (fun x => x != u) with hpre
    set suf := (prev.dropWhile (fun x => x != u)).tail with hsuf
    have hdec : prev = pre ++ u :: suf := takeWhile_ne_decomp hu
    have hnd' : (pre ++ u :: suf).Nodup := hdec ▸ hnd
    have hndsuf : suf.Nodup := ((List.nodup_append.mp hnd').2.1).of_cons
    have hdisj : pre.Disjoint (u :: suf) := (List.nodup_append.mp hnd').2.2
    have hu_pre : u ∉ pre := fun h => hdisj h (List.mem_cons_self u suf)
    have hu_suf : u ∉ suf := ((List.nodup_append.mp hnd').2.1).not_mem
    have hrest : List.Sublist rest suf := sublist_of_cons_append hu_pre (hdec ▸ hsub)
    obtain ⟨ihLen, ihNe, ihCont, ihJoin, ihCov, ihDisj, ihNoU⟩ := ih suf hndsuf hrest
    have hrest_pre : ∀ x ∈ rest, x ∉ pre := by
      intro x hx hxpre
      exact hdisj hxpre (List.mem_cons_of_mem u (hrest.subset hx))
    have hstep : goPart prev (u :: rest) =
        if pre.isEmpty then goPart suf rest else pre :: goPart suf rest := rfl
    by_cases hpe : pre.isEmpty
    · rw [hstep, if_pos hpe]
      have hpre_nil : pre = [] := List.isEmpty_iff.mp hpe
      refine ⟨?_, ihNe, ?_, ?_, ?_, ?_, ?_⟩
      · exact le_trans ihLen (by simp)
      · intro c hc
        obtain ⟨l1, l2, hl⟩ := ihCont c hc
        exact ⟨pre ++ [u] ++ l1, l2, by rw [hdec, hl]; simp⟩
      · rw [hdec, hpre_nil]
        simp only [List.nil_append]
        exact ihJoin.cons u
      · intro x hx
        rw [hdec, hpre_nil] at hx
        simp only [List.nil_append, List.mem_cons] at hx
        rcases hx with hx | hx
        · exact Or.inr (by simp [hx])
        · rcases ihCov x hx with h | h
          · exact Or.inl h
          · exact Or.inr (by simp [h])
      · intro x hx
        have hxs : x ∈ suf := ihJoin.subset hx
        intro hmem
        rcases List.mem_cons.mp hmem with h | h
        · exact hu_suf (h ▸ hxs)
        · exact ihDisj x hx h
      · intro c hc v hv
        rcases List.mem_cons.mp hv with h | h
        · subst h
          intro hvc
          obtain ⟨l1, l2, hl⟩ := ihCont c hc
          exact hu_suf (by rw [hl]; simp [hvc])
        · exact ihNoU c hc v h
    · rw [hstep, if_neg hpe]
      have hpre_ne : pre ≠ [] := fun h => by simp [h] at hpe
      refine ⟨?_, ?_, ?_, ?_, ?_, ?_, ?_⟩
      · simpa using Nat.succ_le_succ ihLen
      · intro c hc
        rcases List.mem_cons.mp hc with h | h
        · exact h ▸ hpre_ne
        · exact ihNe c h
      · intro c hc
        rcases List.mem_cons.mp hc with h | h
        · exact ⟨[], u :: suf, by rw [hdec, h]; simp⟩
        · obtain ⟨l1, l2, hl⟩ := ihCont c h
          exact ⟨pre ++ [u] ++ l1, l2, by rw [hdec, hl]; simp⟩
      · rw [hdec]
        simp only [List.flatten_cons]
        exact (ihJoin.cons u).append_left pre
      · intro x hx
        rw [hdec] at hx
        simp only [List.flatten_cons, List.mem_append, List.mem_cons] at hx ⊢
        rcases hx with hx | hx | hx
        · exact Or.inl (Or.inl hx)
        · exact Or.inr (by simp [hx])
        · rcases ihCov x hx with h | h
          · exact Or.inl (Or.inr h)
          · exact Or.inr (by simp [h])
      · intro x hx
        simp only [List.flatten_cons, List.mem_append] at hx
        intro hmem
        rcases List.mem_cons.mp hmem with hxu | hxr
        · subst hxu
          rcases hx with h | h
          · exact hu_pre h
          · exact hu_suf (ihJoin.subset h)
        · rcases hx with h | h
          · exact hrest_pre x hxr h
          · exact ihDisj x h hxr
      · intro c hc v hv
        rcases List.mem_cons.mp hc with h | h
        · subst h
          rcases List.mem_cons.mp hv with hvu | hvr
          · exact hvu ▸ hu_pre
          · exact hrest_pre v hvr
        · rcases List.mem_cons.mp hv with hvu | hvr
          · subst hvu
            intro hvc
            obtain ⟨l1, l2, hl⟩ := ihCont c h
            exact hu_suf (by rw [hl]; simp [hvc])
          · exact ihNoU c h v hvr

/-- C1: for a duplicate-free topological order and an ordered list of
unsupported node ids drawn from it, `GetPartitionedSubgraphs` returns at most
`k + 1` clusters (`k` unsupported nodes); every cluster is a non-empty
contiguous run of the topological order containing no unsupported node; the
clusters are pairwise disjoint and appear in order (their concatenation is a
sublist of the topological order); and the cluster node ids together with the
unsupported node ids are exactly the full node set, with no overlap between the
two. -/
theorem c1_partitioner_correct (topo unsup : List Nat)
    (hnd : topo.Nodup) (hsub : List.Sublist unsup topo) :
    (getPartitionedSubgraphs topo unsup).length ≤ unsup.length + 1 ∧
    (∀ c ∈ getPartitionedSubgraphs topo unsup,
      c ≠ [] ∧ (∃ l1 l2, topo = l1 ++ c ++ l2) ∧ ∀ u ∈ unsup, u ∉ c) ∧
    List.Sublist (getPartitionedSubgraphs topo unsup).flatten topo ∧
    List.Pairwise List.Disjoint (getPartitionedSubgraphs topo unsup) ∧
    (∀ x, x ∈ topo ↔
      x ∈ (getPartitionedSubgraphs topo unsup).flatten ∨ x ∈ unsup) ∧
    (∀ x ∈ (getPartitionedSubgraphs topo unsup).flatten, x ∉ unsup) := by
  obtain ⟨hLen, hNe, hCont, hJoin, hCov, hDisj, hNoU⟩ := goPart_main unsup topo hnd hsub
  refine ⟨hLen, ?_, hJoin, ?_, ?_, hDisj⟩
  · intro c hc
    exact ⟨hNe c hc, hCont c hc, fun u hu => hNoU c hc u hu⟩
  · exact (List.nodup_flatten.mp (hnd.sublist hJoin)).2
  · intro x
    constructor
    · exact hCov x
    · intro h
      rcases h with h | h
      · exact hJoin.subset h
      · exact hsub.subset h

/-- Witness for C1 at a concrete topological order and unsupported list. -/
theorem c1_partitioner_correct_witness :
    ([0, 1, 2, 3, 4] : List Nat).Nodup ∧ List.Sublist ([1, 3] : List Nat) [0, 1, 2, 3, 4] ∧
    ((getPartitionedSubgraphs [0, 1, 2, 3, 4] [1, 3]).length ≤ 2 + 1 ∧
      (∀ c ∈ getPartitionedSubgraphs [0, 1, 2, 3, 4] [1, 3],
        c ≠ [] ∧ (∃ l1 l2, [0, 1, 2, 3, 4] = l1 ++ c ++ l2) ∧
        ∀ u ∈ [1, 3], u ∉ c) ∧
      List.Sublist (getPartitionedSubgraphs [0, 1, 2, 3, 4] [1, 3]).flatten [0, 1, 2, 3, 4] ∧
      List.Pairwise List.Disjoint (getPartitionedSubgraphs [0, 1, 2, 3, 4] [1, 3]) ∧
      (∀ x, x ∈ [0, 1, 2, 3, 4] ↔
        x ∈ (getPartitionedSubgraphs [0, 1, 2, 3, 4] [1, 3]).flatten ∨ x ∈ [1, 3]) ∧
      (∀ x ∈ (getPartitionedSubgraphs [0, 1, 2, 3, 4] [1, 3]).flatten, x ∉ [1, 3])) :=
  ⟨by decide, by decide,
    c1_partitioner_correct [0, 1, 2, 3, 4] [1, 3] (by decide) (by decide)⟩

/-! ## Theorems: boundary resolver (C5, C6) -/

theorem contains_iff_mem {α : Type} [BEq α] [LawfulBEq α] {l : List α} {x : α} :
    l.contains x = true ↔ x ∈ l := by
  simp [List.contains_eq_any_beq]

theorem mem_insertDedup {l : List String} {x y : String} :
    x ∈ insertDedup l y ↔ x ∈ l ∨ x = y := by
  unfold insertDedup
  split
  · next hc =>
    have hy : y ∈ l := contains_iff_mem.mp hc
    constructor
    · exact Or.inl
    · rintro (hx | rfl)
      · exact hx
      · exact hy
  · simp

theorem nodup_insertDedup {l : List String} {y : String} (h : l.Nodup) :
    (insertDedup l y).Nodup := by
  unfold insertDedup
  split
  · exact h
  · next hc =>
    have hy : y ∉ l := fun hm => hc (contains_iff_mem.mpr hm)
    simp [List.nodup_append, h, hy]

theorem mem_foldl_insert_names (args : List NodeArg) :
    ∀ (acc : List String) (x : String),
      x ∈ args.foldl (fun a arg => insertDedup a arg.name) acc ↔
        x ∈ acc ∨ ∃ arg ∈ args, arg.name = x := by
  induction args with
  | nil => intro acc x; simp
  | cons a args ih =>
    intro acc x
    rw [List.foldl_cons, ih, mem_insertDedup]
    constructor
    · rintro ((h | rfl) | ⟨arg, hm, he⟩)
      · exact Or.inl h
      · exact Or.inr ⟨a, by simp, rfl⟩
      · exact Or.inr ⟨arg, by simp [hm], he⟩
    · rintro (h | ⟨arg, hm, he⟩)
      · exact Or.inl (Or.inl h)
      · rcases List.mem_cons.mp hm with rfl | hm'
        · exact Or.inl (Or.inr he.symm)
        · exact Or.inr ⟨arg, hm', he⟩

theorem nodup_foldl_insert_names (args : List NodeArg) :
    ∀ acc : List String, acc.Nodup →
      (args.foldl (fun a arg => insertDedup a arg.name) acc).Nodup := by
  induction args with
  | nil => intro acc h; exact h
  | cons a args ih => intro acc h; exact ih _ (nodup_insertDedup h)

theorem mem_collectNames_go (g : GraphViewer) (sel : Node → List NodeArg) :
    ∀ (nodes : List Nat) (acc : List String) (x : String),
      x ∈ nodes.foldl (collectStep g sel) acc ↔
        x ∈ acc ∨ ∃ idx ∈ nodes, ∃ n, g.getNode idx = some n ∧
          ∃ o ∈ sel n, o.name = x := by
  intro nodes
  induction nodes with
  | nil => intro acc x; simp
  | cons i is ih =>
    intro acc x
    rw [List.foldl_cons]
    cases hgn : g.getNode i with
    | none =>
      rw [show collectStep g sel acc i = acc from by simp [collectStep, hgn], ih]
      constructor
      · rintro (h | ⟨idx, hidx, n, hn, ho⟩)
        · exact Or.inl h
        · exact Or.inr ⟨idx, by simp [hidx], n, hn, ho⟩
      · rintro (h | ⟨idx, hidx, n, hn, ho⟩)
        · exact Or.inl h
        · rcases List.mem_cons.mp hidx with rfl | hidx'
          · rw [hgn] at hn; cases hn
          · exact Or.inr ⟨idx, hidx', n, hn, ho⟩
    | some n0 =>
      rw [show collectStep g sel acc i =
            (sel n0).foldl (fun a arg => insertDedup a arg.name) acc from
          by simp [collectStep, hgn],
        ih, mem_foldl_insert_names]
      constructor
      · rintro ((h | ⟨o, ho, hname⟩) | ⟨idx, hidx, n, hn, ho⟩)
        · exact Or.inl h
        · exact Or.inr ⟨i, by simp, n0, hgn, o, ho, hname⟩
        · exact Or.inr ⟨idx, by simp [hidx], n, hn, ho⟩
      · rintro (h | ⟨idx, hidx, n, hn, ho⟩)
        · exact Or.inl (Or.inl h)
        · rcases List.mem_cons.mp hidx with rfl | hidx'
          · rw [hgn] at hn
            injection hn with hn'
            subst hn'
            exact Or.inl (Or.inr ho)
          · exact Or.inr ⟨idx, hidx', n, hn, ho⟩

theorem mem_collectNames (g : GraphViewer) (sel : Node → List NodeArg)
    (nodes : List Nat) (x : String) :
    x ∈ collectNames g sel nodes ↔
      ∃ idx ∈ nodes, ∃ n, g.getNode idx = some n ∧ ∃ o ∈ sel n, o.name = x := by
  rw [collectNames, mem_collectNames_go]
  simp

theorem nodup_collectNames_go (g : GraphViewer) (sel : Node → List NodeArg) :
    ∀ (nodes : List Nat) (acc : List String), acc.Nodup →
      (nodes.foldl (collectStep g sel) acc).Nodup := by
  intro nodes
  induction nodes with
  | nil => intro acc h; exact h
  | cons i is ih =>
    intro acc h
    rw [List.foldl_cons]
    apply ih
    unfold collectStep
    cases g.getNode i with
    | none => exact h
    | some n => exact nodup_foldl_insert_names _ _ h

theorem nodup_collectNames (g : GraphViewer) (sel : Node → List NodeArg)
    (nodes : List Nat) : (collectNames g sel nodes).Nodup :=
  nodup_collectNames_go g sel nodes [] (by simp)

theorem mem_markInner (extIn : List String) (outs : List NodeArg) :
    ∀ (acc : List String) (x : String),
      x ∈ outs.foldl (fun a o =>
          if extIn.contains o.name then insertDedup a o.name else a) acc ↔
        x ∈ acc ∨ ∃ o ∈ outs, o.name = x ∧ extIn.contains o.name = true := by
  induction outs with
  | nil => intro acc x; simp
  | cons o os ih =>
    intro acc x
    rw [List.foldl_cons]
    by_cases hc : extIn.contains o.name = true
    · rw [if_pos hc, ih, mem_insertDedup]
      constructor
      · rintro ((h | rfl) | ⟨p, hp, hn, hcp⟩)
        · exact Or.inl h
        · exact Or.inr ⟨o, by simp, rfl, hc⟩
        · exact Or.inr ⟨p, by simp [hp], hn, hcp⟩
      · rintro (h | ⟨p, hp, hn, hcp⟩)
        · exact Or.inl (Or.inl h)
        · rcases List.mem_cons.mp hp with rfl | hp'
          · exact Or.inl (Or.inr hn.symm)
          · exact Or.inr ⟨p, hp', hn, hcp⟩
    · rw [if_neg hc, ih]
      constructor
      · rintro (h | ⟨p, hp, hn, hcp⟩)
        · exact Or.inl h
        · exact Or.inr ⟨p, by simp [hp], hn, hcp⟩
      · rintro (h | ⟨p, hp, hn, hcp⟩)
        · exact Or.inl h
        · rcases List.mem_cons.mp hp with rfl | hp'
          · exact absurd hcp hc
          · exact Or.inr ⟨p, hp', hn, hcp⟩

theorem nodup_markInner (extIn : List String) (outs : List NodeArg) :
    ∀ acc : List String, acc.Nodup →
      (outs.foldl (fun a o =>
        if extIn.contains o.name then insertDedup a o.name else a) acc).Nodup := by
  induction outs with
  | nil => intro acc h; exact h
  | cons o os ih =>
    intro acc h
    rw [List.foldl_cons]
    by_cases hc : extIn.contains o.name = true
    · rw [if_pos hc]; exact ih _ (nodup_insertDedup h)
    · rw [if_neg hc]; exact ih _ h

theorem markConsumerFold_cons (nodes : List Nat) (n m : Node) (ms : List Node)
    (acc : List String) :
    markConsumerFold nodes n (m :: ms) acc =
      markConsumerFold nodes n ms
        (if nodes.contains m.index then acc
         else n.outputDefs.foldl (fun acc3 o =>
           if (m.inputDefs.map NodeArg.name).contains o.name then insertDedup acc3 o.name
           else acc3) acc) := rfl

theorem mem_markConsumerFold (nodes : List Nat) (n : Node) :
    ∀ (ms : List Node) (acc : List String) (x : String),
      x ∈ markConsumerFold nodes n ms acc ↔
        x ∈ acc ∨ ∃ m ∈ ms, nodes.contains m.index = false ∧
          ∃ o ∈ n.outputDefs, o.name = x ∧
            (m.inputDefs.map NodeArg.name).contains o.name = true := by
  intro ms
  induction ms with
  | nil => intro acc x; simp [markConsumerFold]
  | cons m ms ih =>
    intro acc x
    rw [markConsumerFold_cons]
    by_cases hin : nodes.contains m.index = true
    · rw [if_pos hin, ih]
      constructor
      · rintro (h | ⟨p, hp, hout, rest⟩)
        · exact Or.inl h
        · exact Or.inr ⟨p, by simp [hp], hout, rest⟩
      · rintro (h | ⟨p, hp, hout, rest⟩)
        · exact Or.inl h
        · rcases List.mem_cons.mp hp with rfl | hp'
          · rw [hin] at hout; cases hout
          · exact Or.inr ⟨p, hp', hout, rest⟩
    · rw [if_neg hin, ih, mem_markInner]
      have hinf : nodes.contains m.index = false := by
        cases h : nodes.contains m.index
        · rfl
        · exact absurd h hin
      constructor
      · rintro ((h | ⟨o, ho, hname, hcont⟩) | ⟨p, hp, hout, rest⟩)
        · exact Or.inl h
        · exact Or.inr ⟨m, by simp, hinf, o, ho, hname, hcont⟩
        · exact Or.inr ⟨p, by simp [hp], hout, rest⟩
      · rintro (h | ⟨p, hp, hout, o, ho, hname, hcont⟩)
        · exact Or.inl (Or.inl h)
        · rcases List.mem_cons.mp hp with rfl | hp'
          · exact Or.inl (Or.inr ⟨o, ho, hname, hcont⟩)
          · exact Or.inr ⟨p, hp', hout, o, ho, hname, hcont⟩

theorem nodup_markConsumerFold (nodes : List Nat) (n : Node) :
    ∀ (ms : List Node) (acc : List String), acc.Nodup →
      (markConsumerFold nodes n ms acc).Nodup := by
  intro ms
  induction ms with
  | nil => intro acc h; exact h
  | cons m ms ih =>
    intro acc h
    rw [markConsumerFold_cons]
    apply ih
    by_cases hin : nodes.contains m.index = true
    · rw [if_pos hin]; exact h
    · rw [if_neg hin]; exact nodup_markInner _ _ _ h

theorem mem_externalFold (g : GraphViewer) (nodes : List Nat) :
    ∀ (l : List Nat) (acc : List String) (x : String),
      x ∈ l.foldl (externalStep g nodes) acc ↔
        x ∈ acc ∨ ∃ idx ∈ l, ∃ n, g.getNode idx = some n ∧
          ∃ m ∈ consumers g n, nodes.contains m.index = false ∧
            ∃ o ∈ n.outputDefs, o.name = x ∧
              (m.inputDefs.map NodeArg.name).contains o.name = true := by
  intro l
  induction l with
  | nil => intro acc x; simp
  | cons i is ih =>
    intro acc x
    rw [List.foldl_cons]
    cases hgn : g.getNode i with
    | none =>
      rw [show externalStep g nodes acc i = acc from by simp [externalStep, hgn], ih]
      constructor
      · rintro (h | ⟨idx, hidx, rest⟩)
        · exact Or.inl h
        · exact Or.inr ⟨idx, by simp [hidx], rest⟩
      · rintro (h | ⟨idx, hidx, n, hn, rest⟩)
        · exact Or.inl h
        · rcases List.mem_cons.mp hidx with rfl | hidx'
          · rw [hgn] at hn; cases hn
          · exact Or.inr ⟨idx, hidx', n, hn, rest⟩
    | some n0 =>
      rw [show externalStep g nodes acc i = markConsumerFold nodes n0 (consumers g n0) acc from
          by simp [externalStep, hgn, markExternalOutputs],
        ih, mem_markConsumerFold]
      constructor
      · rintro ((h | ⟨m, hm, rest⟩) | ⟨idx, hidx, rest⟩)
        · exact Or.inl h
        · exact Or.inr ⟨i, by simp, n0, hgn, m, hm, rest⟩
        · exact Or.inr ⟨idx, by simp [hidx], rest⟩
      · rintro (h | ⟨idx, hidx, n, hn, rest⟩)
        · exact Or.inl (Or.inl h)
        · rcases List.mem_cons.mp hidx with rfl | hidx'
          · rw [hgn] at hn
            injection hn with hn'
            subst hn'
            exact Or.inl (Or.inr rest)
          · exact Or.inr ⟨idx, hidx', n, hn, rest⟩

theorem nodup_externalOutputArgs (g : GraphViewer) (nodes : List Nat) :
    (externalOutputArgs g nodes).Nodup := by
  rw [externalOutputArgs]
  have : ∀ (l : List Nat) (acc : List String), acc.Nodup →
      (l.foldl (externalStep g nodes) acc).Nodup := by
    intro l
    induction l with
    | nil => intro acc h; exact h
    | cons i is ih =>
      intro acc h
      rw [List.foldl_cons]
      apply ih
      unfold externalStep
      cases g.getNode i with
      | none => exact h
      | some n => exact nodup_markConsumerFold _ _ _ _ h
  exact this _ [] (by simp)

theorem mem_externalOutputArgs (g : GraphViewer) (nodes : List Nat) (x : String) :
    x ∈ externalOutputArgs g nodes ↔
      producedInside g nodes x ∧ consumedOutside g nodes x := by
  rw [externalOutputArgs, mem_externalFold]
  simp only [List.not_mem_nil, false_or]
  constructor
  · rintro ⟨idx, hidx, n, hn, m, hm, hout, o, ho, honame, hcont⟩
    have hmg : m ∈ g.nodes := List.mem_of_mem_filter hm
    refine ⟨⟨idx, hidx, n, hn, o, ho, honame⟩, ⟨m, hmg, hout, ?_⟩⟩
    have hon : o.name ∈ m.inputDefs.map NodeArg.name := contains_iff_mem.mp hcont
    obtain ⟨a, ha, haname⟩ := List.mem_map.mp hon
    exact ⟨a, ha, by rw [haname, honame]⟩
  · rintro ⟨⟨idx, hidx, n, hn, o, ho, honame⟩, ⟨m, hmg, hout, a, ha, haname⟩⟩
    refine ⟨idx, hidx, n, hn, m, ?_, hout, o, ho, honame, ?_⟩
    · rw [consumers, List.mem_filter]
      refine ⟨hmg, ?_⟩
      rw [List.any_eq_true]
      refine ⟨o, ho, ?_⟩
      rw [List.any_eq_true]
      exact ⟨a, ha, by rw [beq_iff_eq, haname, honame]⟩
    · apply contains_iff_mem.mpr
      rw [List.mem_map]
      exact ⟨a, ha, by rw [haname, honame]⟩

theorem mem_collectOutputArgs (g : GraphViewer) (nodes : List Nat) (x : String) :
    x ∈ collectOutputArgs g nodes ↔ producedInside g nodes x := by
  rw [collectOutputArgs, mem_collectNames]
  rfl

theorem getIO_fst (g : GraphViewer) (nodes : List Nat) (req : List String) :
    (getInputsOutputsOfSubgraph g nodes req).1 =
      (collectInputArgs g nodes).filter (fun nm =>
        !(collectOutputArgs g nodes).contains nm && !isConstInput g req nm) ++
      (collectInputArgs g nodes).filter (fun nm => isConstInput g req nm) := rfl

theorem getIO_snd (g : GraphViewer) (nodes : List Nat) (req : List String) :
    (getInputsOutputsOfSubgraph g nodes req).2 =
      externalOutputArgs g nodes ++
        g.outputs.filter (fun nm =>
          (collectOutputArgs g nodes).contains nm &&
            !(externalOutputArgs g nodes).contains nm) := rfl

/-- C5: a name appears in a cluster's output-name list exactly when it is
produced by a node inside the cluster and either some consumer of it lies
outside the cluster or it is a declared graph output; the output list is
duplicate-free.  The declared graph outputs are assumed distinct, as the host
graph guarantees. -/
theorem c5_cluster_outputs (g : GraphViewer) (nodes : List Nat) (req : List String)
    (houtnd : g.outputs.Nodup) :
    (∀ x, x ∈ (getInputsOutputsOfSubgraph g nodes req).2 ↔
      producedInside g nodes x ∧ (consumedOutside g nodes x ∨ x ∈ g.outputs)) ∧
    (getInputsOutputsOfSubgraph g nodes req).2.Nodup := by
  constructor
  · intro x
    rw [getIO_snd, List.mem_append, List.mem_filter, mem_externalOutputArgs]
    constructor
    · rintro (⟨hp, hc⟩ | ⟨hgo, hand⟩)
      · exact ⟨hp, Or.inl hc⟩
      · rw [Bool.and_eq_true] at hand
        exact ⟨(mem_collectOutputArgs g nodes x).mp (contains_iff_mem.mp hand.1),
          Or.inr hgo⟩
    · rintro ⟨hp, hc | hgo⟩
      · exact Or.inl ⟨hp, hc⟩
      · by_cases hext : x ∈ externalOutputArgs g nodes
        · exact Or.inl ((mem_externalOutputArgs g nodes x).mp hext)
        · refine Or.inr ⟨hgo, ?_⟩
          rw [Bool.and_eq_true]
          refine ⟨contains_iff_mem.mpr ((mem_collectOutputArgs g nodes x).mpr hp), ?_⟩
          cases hcb : (externalOutputArgs g nodes).contains x
          · rfl
          · exact absurd (contains_iff_mem.mp hcb) hext
  · rw [getIO_snd]
    apply List.Nodup.append (nodup_externalOutputArgs g nodes)
      (houtnd.filter _)
    intro x hx hxf
    rw [List.mem_filter, Bool.and_eq_true] at hxf
    have := hxf.2.2
    rw [Bool.not_eq_true'] at this
    exact absurd (contains_iff_mem.mpr hx) (by rw [this]; exact Bool.false_ne_true)

/-- Witness for C5 at a concrete two-node graph whose cluster `[0]` produces
`t`, consumed by node 1 outside the cluster. -/
theorem c5_cluster_outputs_witness :
    graphChain.outputs.Nodup ∧
    ((∀ x, x ∈ (getInputsOutputsOfSubgraph graphChain [0] []).2 ↔
      producedInside graphChain [0] x ∧
        (consumedOutside graphChain [0] x ∨ x ∈ graphChain.outputs)) ∧
    (getInputsOutputsOfSubgraph graphChain [0] []).2.Nodup) :=
  ⟨by decide, c5_cluster_outputs graphChain [0] [] (by decide)⟩

/-- C6 counterexample: in the concrete graph `graphW`, whose required-constant
name `w` is produced inside the cluster, consumed inside it, and declared a
graph output, the boundary resolver places `w` in both the input-name list and
the output-name list of the same cluster — the claim as stated is false. -/
theorem c6_counterexample :
    "w" ∈ (getInputsOutputsOfSubgraph graphW [0, 1] ["w"]).1 ∧
    "w" ∈ (getInputsOutputsOfSubgraph graphW [0, 1] ["w"]).2 := by
  constructor
  · show "w" ∈ ["w"]
    simp
  · show "w" ∈ ["w"]
    simp

/-- C6 (amended): a name in a cluster's input list never also appears in the
output list unless it is classified as a constant input and is produced inside
the cluster; in particular the runtime-input portion never overlaps the output
list. -/
theorem c6_overlap_only_const (g : GraphViewer) (nodes : List Nat)
    (req : List String) (x : String)
    (hin : x ∈ (getInputsOutputsOfSubgraph g nodes req).1)
    (hout : x ∈ (getInputsOutputsOfSubgraph g nodes req).2) :
    isConstInput g req x = true ∧ producedInside g nodes x := by
  have hprod : producedInside g nodes x := by
    rw [getIO_snd, List.mem_append] at hout
    rcases hout with h | h
    · exact ((mem_externalOutputArgs g nodes x).mp h).1
    · rw [List.mem_filter, Bool.and_eq_true] at h
      exact (mem_collectOutputArgs g nodes x).mp (contains_iff_mem.mp h.2.1)
  refine ⟨?_, hprod⟩
  rw [getIO_fst, List.mem_append] at hin
  rcases hin with h | h
  · rw [List.mem_filter, Bool.and_eq_true] at h
    have hnc := h.2.1
    rw [Bool.not_eq_true'] at hnc
    have : x ∈ collectOutputArgs g nodes := (mem_collectOutputArgs g nodes x).mpr hprod
    exact absurd (contains_iff_mem.mpr this) (by rw [hnc]; exact Bool.false_ne_true)
  · rw [List.mem_filter] at h
    exact h.2

/-- Witness for the amended C6 at the concrete graph `graphW`. -/
theorem c6_overlap_only_const_witness :
    ("w" ∈ (getInputsOutputsOfSubgraph graphW [0, 1] ["w"]).1 ∧
     "w" ∈ (getInputsOutputsOfSubgraph graphW [0, 1] ["w"]).2) ∧
    (isConstInput graphW ["w"] "w" = true ∧ producedInside graphW [0, 1] "w") :=
  ⟨⟨by decide, by decide⟩,
    c6_overlap_only_const graphW [0, 1] ["w"] "w" (by decide) (by decide)⟩

/-! ## Theorems: capability query (C2, C3, C9) -/

/-- C2: on a graph that passes the feasibility gate, whose computed
unsupported-node list is empty and whose declared-input list is non-empty,
`GetCapability` short-circuits to exactly one cluster holding the whole
topological order, with input names the declared graph inputs followed by the
required-constant initializer names and output names the declared outputs. -/
theorem c2_whole_graph_cluster (g : GraphViewer) (supOps : List String)
    (probeSize : Nat)
    (hsg : g.isSubgraph = false)
    (hae : anyExternalInitializer g = false)
    (hlen : ¬ g.outputs.length > 1)
    (hdyn : hasDynamicInput g = false)
    (hprobe : probeSize ≠ 0)
    (hunsup : (getUnsupportedNodeIndices g supOps).1 = [])
    (hinp : g.inputs ≠ []) :
    GetCapability g supOps probeSize =
      [⟨g.topoOrder, g.inputs ++ (getUnsupportedNodeIndices g supOps).2,
        g.outputs⟩] := by
  have h1 : ¬ (g.isSubgraph = true) := by rw [hsg]; exact Bool.false_ne_true
  have h2 : ¬ (anyExternalInitializer g = true) := by
    rw [hae]; exact Bool.false_ne_true
  have h4 : ¬ (hasDynamicInput g = true) := by rw [hdyn]; exact Bool.false_ne_true
  have h6 : (getUnsupportedNodeIndices g supOps).1.isEmpty = true := by
    rw [hunsup]; rfl
  have h7 : ¬ (g.inputs.isEmpty = true) := fun h => hinp (List.isEmpty_iff.mp h)
  simp only [GetCapability, modelOutputs]
  rw [if_neg h1, if_neg h2, if_neg hlen, if_neg h4, if_neg hprobe,
    if_pos h6, if_neg h7]

/-- Witness for C2 at the concrete one-node graph `graphAdd`. -/
theorem c2_whole_graph_cluster_witness :
    (graphAdd.isSubgraph = false ∧ anyExternalInitializer graphAdd = false ∧
      ¬ graphAdd.outputs.length > 1 ∧ hasDynamicInput graphAdd = false ∧
      (1 : Nat) ≠ 0 ∧ (getUnsupportedNodeIndices graphAdd ["Add"]).1 = [] ∧
      graphAdd.inputs ≠ []) ∧
    GetCapability graphAdd ["Add"] 1 =
      [⟨graphAdd.topoOrder,
        graphAdd.inputs ++ (getUnsupportedNodeIndices graphAdd ["Add"]).2,
        graphAdd.outputs⟩] :=
  ⟨⟨by decide, by decide, by decide, by decide, by decide, by decide, by decide⟩,
    c2_whole_graph_cluster graphAdd ["Add"] 1 (by decide) (by decide) (by decide)
      (by decide) (by decide) (by decide) (by decide)⟩

/-- C3: `GetCapability` returns no clusters — an empty capability list, with no
error raised (the embedding is a total function into a plain list) — whenever
some initializer stores its data externally, or the graph declares more than
one output, or some declared model input resolves to an argument with a
dimension lacking a static value, or the probe parse yields an empty program. -/
theorem c3_gate_rejections (g : GraphViewer) (supOps : List String)
    (probeSize : Nat)
    (h : (∃ t ∈ g.initializers, t.isExternal = true) ∨
         g.outputs.length > 1 ∨
         (∃ nm ∈ g.inputsIncludingInitializers, ∃ arg tp,
            g.getNodeArg nm = some arg ∧ arg.type = some tp ∧
            (none : Option Nat) ∈ tp.dims) ∨
         probeSize = 0) :
    GetCapability g supOps probeSize = [] := by
  unfold GetCapability
  split
  · rfl
  split
  · rfl
  next hae =>
  split
  · rfl
  next hlen =>
  split
  · rfl
  next hdynb =>
  split
  · rfl
  next hpr =>
  exfalso
  rcases h with hext | hl | hd | hp
  · apply hae
    rw [anyExternalInitializer, List.any_eq_true]
    obtain ⟨t, ht, hx⟩ := hext
    exact ⟨t, ht, hx⟩
  · exact hlen hl
  · apply hdynb
    rw [hasDynamicInput, List.any_eq_true]
    obtain ⟨nm, hnm, arg, tp, harg, htp, hdim⟩ := hd
    refine ⟨nm, hnm, ?_⟩
    simp only [harg, htp]
    rw [List.any_eq_true]
    exact ⟨none, hdim, rfl⟩
  · exact hpr hp

/-- Witness for C3 at the concrete two-output graph `graphTwoOut`. -/
theorem c3_gate_rejections_witness :
    graphTwoOut.outputs.length > 1 ∧ GetCapability graphTwoOut [] 1 = [] :=
  ⟨by decide, c3_gate_rejections graphTwoOut [] 1 (Or.inr (Or.inl (by decide)))⟩

theorem foldl_filter_append {α β : Type} (p : α → Bool) (h : α → β) :
    ∀ (l : List α) (acc : List β),
      l.foldl (fun res c => if p c then res else res ++ [h c]) acc =
        acc ++ l.filterMap (fun c => if p c then none else some (h c)) := by
  intro l
  induction l with
  | nil => intro acc; simp
  | cons c cs ih =>
    intro acc
    rw [List.foldl_cons, ih, List.filterMap_cons]
    by_cases hc : p c = true
    · simp [hc]
    · have hcf : p c = false := by
        cases hb : p c
        · rfl
        · exact absurd hb hc
      simp [hcf]

/-- C9: when the computed unsupported-node list is non-empty (and the
feasibility gate passes), `GetCapability` keeps exactly the partitioned
clusters whose computed runtime-input-name list is non-empty, silently
dropping the rest; and on the concrete graph `graphGen` — supported generator
node 0 feeding unsupported node 1 — the only cluster `[0]` has an empty input
list, so the returned clusters together with the unsupported nodes miss node 0
even though the partitioner's raw clusters cover it. -/
theorem c9_empty_input_clusters_dropped (g : GraphViewer) (supOps : List String)
    (probeSize : Nat)
    (hsg : g.isSubgraph = false)
    (hae : anyExternalInitializer g = false)
    (hlen : ¬ g.outputs.length > 1)
    (hdyn : hasDynamicInput g = false)
    (hprobe : probeSize ≠ 0)
    (hunsup : (getUnsupportedNodeIndices g supOps).1 ≠ []) :
    (GetCapability g supOps probeSize =
      (getPartitionedSubgraphs g.topoOrder
          (getUnsupportedNodeIndices g supOps).1).filterMap (fun c =>
        if (getInputsOutputsOfSubgraph g c (getUnsupportedNodeIndices g supOps).2).1.isEmpty
        then none
        else some ⟨c,
          (getInputsOutputsOfSubgraph g c (getUnsupportedNodeIndices g supOps).2).1,
          (getInputsOutputsOfSubgraph g c (getUnsupportedNodeIndices g supOps).2).2⟩)) ∧
    (GetCapability graphGen ["Gen"] 1 = [] ∧
      (getUnsupportedNodeIndices graphGen ["Gen"]).1 = [1] ∧
      (0 : Nat) ∈ graphGen.topoOrder ∧
      (0 : Nat) ∉ (getUnsupportedNodeIndices graphGen ["Gen"]).1 ∧
      getPartitionedSubgraphs graphGen.topoOrder
        (getUnsupportedNodeIndices graphGen ["Gen"]).1 = [[0]]) := by
  constructor
  · have h1 : ¬ (g.isSubgraph = true) := by rw [hsg]; exact Bool.false_ne_true
    have h2 : ¬ (anyExternalInitializer g = true) := by
      rw [hae]; exact Bool.false_ne_true
    have h4 : ¬ (hasDynamicInput g = true) := by
      rw [hdyn]; exact Bool.false_ne_true
    have h6 : ¬ ((getUnsupportedNodeIndices g supOps).1.isEmpty = true) :=
      fun h => hunsup (List.isEmpty_iff.mp h)
    simp only [GetCapability, modelOutputs]
    rw [if_neg h1, if_neg h2, if_neg hlen, if_neg h4, if_neg hprobe, if_neg h6]
    rw [foldl_filter_append
      (fun c => (getInputsOutputsOfSubgraph g c (getUnsupportedNodeIndices g supOps).2).1.isEmpty)
      (fun c => (⟨c,
        (getInputsOutputsOfSubgraph g c (getUnsupportedNodeIndices g supOps).2).1,
        (getInputsOutputsOfSubgraph g c (getUnsupportedNodeIndices g supOps).2).2⟩ : ClusterCap))]
    simp
  · exact ⟨by decide, by decide, by decide, by decide, by decide⟩

/-- Witness for C9 at the concrete graph `graphGen`. -/
theorem c9_empty_input_clusters_dropped_witness :
    (graphGen.isSubgraph = false ∧ anyExternalInitializer graphGen = false ∧
      ¬ graphGen.outputs.length > 1 ∧ hasDynamicInput graphGen = false ∧
      (1 : Nat) ≠ 0 ∧ (getUnsupportedNodeIndices graphGen ["Gen"]).1 ≠ []) ∧
    GetCapability graphGen ["Gen"] 1 =
      (getPartitionedSubgraphs graphGen.topoOrder
          (getUnsupportedNodeIndices graphGen ["Gen"]).1).filterMap (fun c =>
        if (getInputsOutputsOfSubgraph graphGen c
              (getUnsupportedNodeIndices graphGen ["Gen"]).2).1.isEmpty
        then none
        else some ⟨c,
          (getInputsOutputsOfSubgraph graphGen c
            (getUnsupportedNodeIndices graphGen ["Gen"]).2).1,
          (getInputsOutputsOfSubgraph graphGen c
            (getUnsupportedNodeIndices graphGen ["Gen"]).2).2⟩) :=
  ⟨⟨by decide, by decide, by decide, by decide, by decide, by decide⟩,
    (c9_empty_input_clusters_dropped graphGen ["Gen"] 1 (by decide) (by decide)
      (by decide) (by decide) (by decide) (by decide)).1⟩

/-! ## Theorems: dispatch (C7, C8) -/

theorem bindInputsLoop_error_iff (inputIndexes : List (Nat × Nat))
    (inputs : List RuntimeTensor) :
    ∀ (params : List (String × MgxShape)) (pidx : Nat),
      (∃ e, bindInputsLoop inputIndexes inputs params pidx = .error e) ↔
        ∃ j p, params[j]? = some p ∧
          ∃ ord, lookupIdx inputIndexes (pidx + j) = some ord ∧
            (get_migraphx_type ((inputs.getD ord ⟨.UNDEFINED⟩).elemType)).2 ≠
              p.2.type := by
  intro params
  induction params with
  | nil =>
    intro pidx
    simp [bindInputsLoop]
  | cons q rest ih =>
    intro pidx
    obtain ⟨nm, sh⟩ := q
    cases hl : lookupIdx inputIndexes pidx with
    | none =>
      simp only [bindInputsLoop, hl]
      rw [ih]
      constructor
      · rintro ⟨j, p, hg, ord, ho, hne⟩
        refine ⟨j + 1, p, by simpa using hg, ord, ?_, hne⟩
        rw [show pidx + (j + 1) = pidx + 1 + j from by omega]
        exact ho
      · rintro ⟨j, p, hg, ord, ho, hne⟩
        cases j with
        | zero =>
          rw [Nat.add_zero] at ho
          rw [hl] at ho
          cases ho
        | succ j =>
          refine ⟨j, p, by simpa using hg, ord, ?_, hne⟩
          rw [show pidx + 1 + j = pidx + (j + 1) from by omega]
          exact ho
    | some ord =>
      by_cases hty :
          (get_migraphx_type ((inputs.getD ord ⟨.UNDEFINED⟩).elemType)).2 = sh.type
      · simp only [bindInputsLoop, hl, if_pos hty]
        constructor
        · rintro ⟨e, he⟩
          cases hr : bindInputsLoop inputIndexes inputs rest (pidx + 1) with
          | ok m => rw [hr] at he; cases he
          | error e' =>
            have hrec : ∃ e, bindInputsLoop inputIndexes inputs rest (pidx + 1) =
                .error e := ⟨e', hr⟩
            rw [ih] at hrec
            obtain ⟨j, p, hg, ord', ho, hne⟩ := hrec
            refine ⟨j + 1, p, by simpa using hg, ord', ?_, hne⟩
            rw [show pidx + (j + 1) = pidx + 1 + j from by omega]
            exact ho
        · rintro ⟨j, p, hg, ord', ho, hne⟩
          cases j with
          | zero =>
            rw [Nat.add_zero] at ho
            rw [hl] at ho
            injection ho with ho'
            subst ho'
            rw [show p = (nm, sh) from (by simpa using hg : (nm, sh) = p).symm] at hne
            exact absurd hty hne
          | succ j =>
            have hrec : ∃ e, bindInputsLoop inputIndexes inputs rest (pidx + 1) =
                .error e := by
              rw [ih]
              refine ⟨j, p, by simpa using hg, ord', ?_, hne⟩
              rw [show pidx + 1 + j = pidx + (j + 1) from by omega]
              exact ho
            obtain ⟨e, he⟩ := hrec
            exact ⟨e, by rw [he]⟩
      · simp only [bindInputsLoop, hl, if_neg hty]
        constructor
        · intro _
          exact ⟨0, (nm, sh), by simp, ord, by rw [Nat.add_zero]; exact hl, hty⟩
        · intro _
          exact ⟨"MIGraphX: param type mismatch", rfl⟩

/-- C7 (amended): a dispatch call fails with `MIGRAPHX_THROW` — and program
evaluation is not attempted, the result being an error rather than a parameter
map — exactly when some parameter bound to a runtime input has a declared type
different from the image of the tensor's element type under
`get_migraphx_type`.  Every runtime type inside the supported numeric set that
disagrees with the parameter type is therefore fatal, but a type outside the
set is mapped to `float` (the discarded failure branch of `get_migraphx_type`),
so it escapes detection whenever the parameter's declared type is `float`. -/
theorem c7_mismatch_throw_iff (st : FuncState) (inputs : List RuntimeTensor) :
    (∃ e, computeFunc st inputs = .error e) ↔
      ∃ j p, st.paramShapes[j]? = some p ∧
        ∃ ord, lookupIdx st.inputIndexes j = some ord ∧
          (get_migraphx_type ((inputs.getD ord ⟨.UNDEFINED⟩).elemType)).2 ≠
            p.2.type := by
  have hmain : (∃ e, computeFunc st inputs = .error e) ↔
      (∃ e, bindInputsLoop st.inputIndexes inputs st.paramShapes 0 = .error e) := by
    unfold computeFunc
    cases hb : bindInputsLoop st.inputIndexes inputs st.paramShapes 0 with
    | ok m => simp
    | error e => simp
  rw [hmain, bindInputsLoop_error_iff]
  simp

/-- C7 counterexample: a runtime tensor of element type `BOOL` — which does not
correspond to the compiled parameter's declared type `float` under the
supported-type mapping — is dispatched against the one-parameter program
`stateOneParam`, yet the call does not fail: no `MIGRAPHX_THROW` is raised and
evaluation proceeds with the tensor bound, because the ignored failure branch
of `get_migraphx_type` leaves the mapped type at its `float` initialization.
The claim that every differing runtime type, including those outside the
supported numeric set, is fatal is therefore false. -/
theorem c7_counterexample :
    ¬ typeMatches OnnxDataType.BOOL MgxType.float ∧
    computeFunc stateOneParam [⟨OnnxDataType.BOOL⟩] =
      .ok [("x", MgxArg.inputView 0)] := by
  exact ⟨by decide, rfl⟩

/-- C8: evaluating the code at the failing input.  For the compiled program
`stateScratch`, whose parameter-shape map contains the reserved name
`scratch` and whose `ExecutionState` carries the buffer pre-allocated at
compile time, a dispatch call binds a scratch argument freshly generated
during that call — not the pre-allocated one, which is never referenced. -/
theorem c8_scratch_rebound_each_call :
    stateScratch.scratch = MgxArg.prealloc ∧
    computeFunc stateScratch [] =
      .ok [("scratch", MgxArg.freshScratch ⟨.float, [4]⟩)] ∧
    MgxArg.freshScratch ⟨.float, [4]⟩ ≠ MgxArg.prealloc := by
  exact ⟨rfl, rfl, by decide⟩

end MigraphxEP
